import Mathlib

/-!
Verification of the J-Archive extension's background service worker and
content-script state machine, shallowly embedded in Lean.

The embedding follows the TypeScript source: `cleanUrl`, `isValidUrl`,
`buildArchiveSearchUrl`, `parseArchiveResults`, `searchArchiveResults`,
`findArchiveVersion`, `handleFindArchive` (background worker), and
`ArchiveNotificationUI.handleMessage` / `init` / `renderUI` (content script).

The source delegates URL parsing to the platform's WHATWG `new URL`.
That primitive is modelled here by `parseURL`, at the fidelity the
verified properties need: scheme recognition and lowercasing, the
special-scheme slash handling, authority splitting with userinfo
stripping (`urlObj.host` excludes userinfo), host lowercasing and
forbidden-character rejection, default-port dropping, path/query/fragment
delimiting, and backslash-to-slash path conversion for special schemes.
Out of modelled scope (documented simplifications): percent-encoding and
IDNA of hosts, dot-segment resolution and percent-encoding of paths,
IPv6 literals, tab/newline stripping, port range checks, and numeric
re-serialisation of ports with leading zeros.
-/

namespace JArchive

/-! ### Character helpers -/

/-- ASCII uppercase letter to lowercase; all other characters unchanged. -/
def lowerChar (c : Char) : Char :=
  if 65 ≤ c.toNat ∧ c.toNat ≤ 90 then Char.ofNat (c.toNat + 32) else c

/-- ASCII letter test. -/
def isAsciiAlpha (c : Char) : Bool :=
  (65 ≤ c.toNat && c.toNat ≤ 90) || (97 ≤ c.toNat && c.toNat ≤ 122)

/-- ASCII digit test. -/
def isAsciiDigit (c : Char) : Bool :=
  48 ≤ c.toNat && c.toNat ≤ 57

/-- The character class of the regex `[a-zA-Z0-9]` in `parseArchiveResults`. -/
def isAlnumChar (c : Char) : Bool :=
  isAsciiAlpha c || isAsciiDigit c

/-- Characters allowed in a URL scheme after the first (WHATWG). -/
def isSchemeChar (c : Char) : Bool :=
  isAlnumChar c || c == '+' || c == '-' || c == '.'

/-- Forbidden host code points (WHATWG), with the simplification that `%`
is also rejected (the model does not percent-decode hosts). -/
def forbiddenHostChar (c : Char) : Bool :=
  c == ' ' || c == '\t' || c == '\n' || c == '\r' || c == '#' || c == '/' ||
  c == ':' || c == '<' || c == '>' || c == '?' || c == '@' || c == '[' ||
  c == '\\' || c == ']' || c == '^' || c == '|' || c == '%'

/-! ### WHATWG URL model -/

/-- The projection of a parsed WHATWG URL used by the source:
`urlObj.protocol` (scheme plus `":"`), `urlObj.host` (hostname, plus
`":port"` when the port is present and not the scheme default, userinfo
excluded) and `urlObj.pathname`. -/
structure URLRecord where
  protocol : String
  host : String
  pathname : String
deriving DecidableEq, Repr

/-- The WHATWG special schemes handled by the authority branch
(`file` is treated separately). -/
def specialSchemes : List String := ["http", "https", "ws", "wss", "ftp"]

/-- Default port of a special scheme, as the digit string it would be
written with. -/
def defaultPortStr : String → Option String
  | "http" => some "80"
  | "https" => some "443"
  | "ws" => some "80"
  | "wss" => some "443"
  | "ftp" => some "21"
  | _ => none

/-- A slash in either direction (authority-skipping for special
schemes). -/
def slashChar (c : Char) : Bool := c == '/' || c == '\\'

/-- Not an authority delimiter of a special scheme. -/
def notSpecialDelim (c : Char) : Bool := !(c == '/' || c == '\\' || c == '?' || c == '#')

/-- Not an authority delimiter of a non-special scheme. -/
def notNSDelim (c : Char) : Bool := !(c == '/' || c == '?' || c == '#')

/-- Not a query or fragment delimiter. -/
def notQH (c : Char) : Bool := !(c == '?' || c == '#')

/-- Not a colon (hostname/port split). -/
def notColon (c : Char) : Bool := !(c == ':')

/-- Not an at-sign (userinfo split). -/
def notAt (c : Char) : Bool := !(c == '@')

/-- Backslash-to-slash conversion in special-scheme paths. -/
def slashFix (c : Char) : Char := if c == '\\' then '/' else c

/-- Split off the scheme: the longest run of scheme characters, which must
be nonempty, start with a letter and be followed by `':'`.  The scheme is
lowercased.  Returns the scheme and the remainder after the colon. -/
def splitScheme (l : List Char) : Option (String × List Char) :=
  let sch := l.takeWhile isSchemeChar
  match l.dropWhile isSchemeChar with
  | ':' :: r =>
    match sch with
    | [] => none
    | c :: _ => if isAsciiAlpha c then some (⟨sch.map lowerChar⟩, r) else none
  | _ => none

/-- The part of the authority after the last `'@'` (the whole authority
when there is no userinfo). -/
def afterLastAt (l : List Char) : List Char :=
  (l.reverse.takeWhile notAt).reverse

/-- Parse a `hostname[:port]` slice into the serialised `host` field.
For special schemes the hostname must be nonempty and is lowercased, and
the scheme's default port is dropped. -/
def parseHostPort (special : Bool) (scheme : String) (hp : List Char) : Option String :=
  let name := hp.takeWhile notColon
  let restc := hp.dropWhile notColon
  if name.any forbiddenHostChar then none
  else if special && name.isEmpty then none
  else
    let hostName : List Char := cond special (name.map lowerChar) name
    let port := restc.drop 1
    if restc.isEmpty || port.isEmpty then some ⟨hostName⟩
    else if port.all isAsciiDigit then
      if special && defaultPortStr scheme == some ⟨port⟩ then some ⟨hostName⟩
      else some ⟨hostName ++ ':' :: port⟩
    else none

/-- Authority-and-path parsing for the non-`file` special schemes: any
run of slashes after the colon is skipped, the authority runs to the next
`/ \ ? #`, userinfo is dropped, and the path (backslashes normalised,
query and fragment cut off) defaults to `"/"`. -/
def parseSpecial (scheme : String) (rest : List Char) : Option URLRecord :=
  let rest2 := rest.dropWhile slashChar
  let auth := rest2.takeWhile notSpecialDelim
  let after := rest2.dropWhile notSpecialDelim
  match parseHostPort true scheme (afterLastAt auth) with
  | none => none
  | some host =>
    let rawPath := (after.takeWhile notQH).map slashFix
    let path : List Char := if rawPath.isEmpty then ['/'] else rawPath
    some ⟨scheme ++ ":", host, ⟨path⟩⟩

/-- `file:` URLs, modelled crudely: an optional `//host`, otherwise a
path-only URL whose path is rooted. -/
def parseFile (rest : List Char) : Option URLRecord :=
  match rest with
  | '/' :: '/' :: r =>
    match r with
    | [] => some ⟨"file:", "", "/"⟩
    | c :: _ =>
      if slashChar c then
        some ⟨"file:", "", ⟨(r.takeWhile notQH).map slashFix⟩⟩
      else
        let auth := r.takeWhile notSpecialDelim
        let after := r.dropWhile notSpecialDelim
        if auth.any (fun x => x == '@' || x == ':') then none
        else if auth.any forbiddenHostChar then none
        else
          let rawPath := (after.takeWhile notQH).map slashFix
          let path : List Char := if rawPath.isEmpty then ['/'] else rawPath
          some ⟨"file:", ⟨auth.map lowerChar⟩, ⟨path⟩⟩
  | _ =>
    let rawPath := (rest.takeWhile notQH).map slashFix
    let path : List Char :=
      match rawPath with
      | '/' :: _ => rawPath
      | _ => '/' :: rawPath
    some ⟨"file:", "", ⟨path⟩⟩

/-- Non-special schemes: `//` introduces an authority (possibly empty
host, no default ports, no lowercasing), otherwise the remainder is an
opaque path. -/
def parseNonSpecial (scheme : String) (rest : List Char) : Option URLRecord :=
  match rest with
  | '/' :: '/' :: r =>
    let auth := r.takeWhile notNSDelim
    let hp := afterLastAt auth
    if auth.any (fun c => c == '@') && hp.isEmpty then none
    else
      match parseHostPort false scheme hp with
      | none => none
      | some host =>
        let after := r.dropWhile notNSDelim
        let path := after.takeWhile notQH
        some ⟨scheme ++ ":", host, ⟨path⟩⟩
  | _ =>
    let path := rest.takeWhile notQH
    some ⟨scheme ++ ":", "", ⟨path⟩⟩

/-- Dispatch on the recognised scheme. -/
def parseAfterScheme (scheme : String) (rest : List Char) : Option URLRecord :=
  if specialSchemes.contains scheme then parseSpecial scheme rest
  else if scheme == "file" then parseFile rest
  else parseNonSpecial scheme rest

/-- Model of the platform's `new URL(s)`: `none` models the constructor
throwing. -/
def parseURL (s : String) : Option URLRecord :=
  match splitScheme s.data with
  | none => none
  | some (scheme, rest) => parseAfterScheme scheme rest

/-! ### The source's URL utilities -/

/-- `cleanUrl` from the background worker: on a parseable URL returns
`protocol + "//" + host + pathname` (dropping query and fragment); the
`catch` branch returns the input unchanged. -/
def cleanUrl (url : String) : String :=
  match parseURL url with
  | some u => u.protocol ++ "//" ++ u.host ++ u.pathname
  | none => url

/-- `isValidUrl` from the background worker: true exactly when the input
parses and its protocol is `http:` or `https:`. -/
def isValidUrl (url : String) : Bool :=
  match parseURL url with
  | some u => u.protocol == "http:" || u.protocol == "https:"
  | none => false

/-! ### Result extraction (`parseArchiveResults`) -/

/-- The marker token `'TEXT-BLOCK'` preceding the results section. -/
def markerChars : List Char := "TEXT-BLOCK".data

/-- The fixed head of an archive link, `https://archive.ph/`. -/
def linkHead : List Char := "https://archive.ph/".data

/-- JavaScript `indexOf`: index of the first occurrence of `sub`, `none`
for the `-1` case. -/
def jsIndexOf (sub : List Char) : List Char → Option Nat
  | [] => if sub.isPrefixOf ([] : List Char) then some 0 else none
  | c :: t =>
    if sub.isPrefixOf (c :: t) then some 0
    else (jsIndexOf sub t).map (· + 1)

/-- One attempt of the regex `https:\/\/archive\.ph\/[a-zA-Z0-9]{5,}` at
the head of `l`: the literal head followed by a maximal (greedy) run of
at least five alphanumerics. -/
def matchAt (l : List Char) : Option (List Char) :=
  if linkHead.isPrefixOf l then
    let run := (l.drop linkHead.length).takeWhile isAlnumChar
    if 5 ≤ run.length then some (linkHead ++ run) else none
  else none

/-- Leftmost regex match: `html.match(re)[0]` over the scanned slice. -/
def scanFirst : List Char → Option (List Char)
  | [] => none
  | c :: t =>
    match matchAt (c :: t) with
    | some m => some m
    | none => scanFirst t

/-- `parseArchiveResults` from the background worker.  Note the faithful
JavaScript `slice` semantics: when `indexOf` returns `-1`, `slice(-1)`
keeps only the final character of the document. -/
def parseArchiveResults (html : String) (originalUrl : String) : Option String :=
  let d := html.data
  let sliced :=
    match jsIndexOf markerChars d with
    | some i => d.drop i
    | none => d.drop (d.length - 1)
  (scanFirst sliced).map (fun m => (⟨m⟩ : String))

/-! ### Lookup pipeline -/

/-- `encodeURIComponent`: unreserved characters pass through, everything
else is percent-encoded from its UTF-8 bytes. -/
def isUnreservedURI (c : Char) : Bool :=
  isAlnumChar c || c == '-' || c == '_' || c == '.' || c == '!' || c == '~' ||
  c == '*' || c.toNat == 39 || c == '(' || c == ')'

/-- Uppercase hexadecimal digit of a value below 16. -/
def hexDigit (n : Nat) : Char :=
  if n < 10 then Char.ofNat (48 + n) else Char.ofNat (55 + n)

/-- UTF-8 bytes of a character, as natural numbers. -/
def utf8Bytes (c : Char) : List Nat :=
  let n := c.toNat
  if n < 128 then [n]
  else if n < 2048 then [192 + n / 64, 128 + n % 64]
  else if n < 65536 then [224 + n / 4096, 128 + (n / 64) % 64, 128 + n % 64]
  else [240 + n / 262144, 128 + (n / 4096) % 64, 128 + (n / 64) % 64, 128 + n % 64]

/-- Model of JavaScript's `encodeURIComponent`. -/
def encodeURIComponent (s : String) : String :=
  ⟨s.data.foldr
    (fun c acc =>
      if isUnreservedURI c then c :: acc
      else (utf8Bytes c).foldr (fun b acc2 => '%' :: hexDigit (b / 16) :: hexDigit (b % 16) :: acc2) acc)
    []⟩

/-- `buildArchiveSearchUrl` from the background worker. -/
def buildArchiveSearchUrl (url : String) : String :=
  "https://archive.ph/" ++ encodeURIComponent url

/-- The `ArchiveResponse` record of the background worker. -/
structure ArchiveResponse where
  success : Bool
  archiveUrl : Option String
  error : Option String
deriving DecidableEq, Repr

/-- Result of the single `fetch` call, as seen by `searchArchiveResults`:
either an HTTP response or a rejected promise (transport error, DNS
failure, or the 10 s `AbortSignal.timeout`) carrying an error message. -/
inductive FetchOutcome where
  | response (status : Nat) (statusText : String) (body : String)
  | netError (message : String)
deriving DecidableEq, Repr

/-- The Fetch API's `response.ok`: status in the 2xx range. -/
def responseOk (status : Nat) : Bool :=
  200 ≤ status && status ≤ 299

/-- `searchArchiveResults` from the background worker.  A non-2xx status
throws `HTTP <status>: <statusText>`, and the function's own `catch`
converts any throw or rejection into `Search failed: <message>`. -/
def searchArchiveResults (searchUrl : String) (originalUrl : String)
    (fetched : FetchOutcome) : ArchiveResponse :=
  match fetched with
  | .netError msg => ⟨false, none, some ("Search failed: " ++ msg)⟩
  | .response status statusText body =>
    if responseOk status then
      match parseArchiveResults body originalUrl with
      | some archiveUrl => ⟨true, some archiveUrl, none⟩
      | none => ⟨false, none, some "No archive results found"⟩
    else
      ⟨false, none, some ("Search failed: " ++ ("HTTP " ++ toString status ++ ": " ++ statusText))⟩

/-- `findArchiveVersion` from the background worker. -/
def findArchiveVersion (url : String) (fetched : FetchOutcome) : ArchiveResponse :=
  let cleanedUrl := cleanUrl url
  let archiveSearchUrl := buildArchiveSearchUrl cleanedUrl
  searchArchiveResults archiveSearchUrl cleanedUrl fetched

/-- Message sent by `handleFindArchive` to the originating tab. -/
inductive TabMessage where
  | archiveFound (archiveUrl : String)
  | archiveError (error : String)
deriving DecidableEq, Repr

/-- JavaScript `a || b` on an optional string: the default is used when
the string is absent or empty (falsy). -/
def jsOr (o : Option String) (dflt : String) : String :=
  match o with
  | some s => if s == "" then dflt else s
  | none => dflt

/-- Truthiness of an optional string, as JavaScript's conditions use it. -/
def truthyS (o : Option String) : Bool :=
  match o with
  | some s => !(s == "")
  | none => false

/-- `handleFindArchive` from the background worker: with no tab id it
only logs; otherwise it sends exactly one message, `ARCHIVE_FOUND` when
the search succeeded with a (truthy) archive URL, else `ARCHIVE_ERROR`
with `archiveResult.error || 'Archive not found'`. -/
def handleFindArchive (url : String) (tabId : Option Nat)
    (fetched : FetchOutcome) : Option TabMessage :=
  match tabId with
  | none => none
  | some _ =>
    let archiveResult := findArchiveVersion url fetched
    if archiveResult.success && truthyS archiveResult.archiveUrl then
      some (.archiveFound (jsOr archiveResult.archiveUrl ""))
    else
      some (.archiveError (jsOr archiveResult.error "Archive not found"))

/-! ### Content-script UI (state machine of the notification) -/

/-- `UIState` from the content script / `types.ts`. -/
structure UIState where
  isLoading : Bool
  hasArchive : Bool
  archiveUrl : Option String
  error : Option String
deriving DecidableEq, Repr

/-- The message vocabulary of the extension. -/
inductive ExtensionMessage where
  | findArchive (url : String)
  | archiveFound (archiveUrl : String)
  | archiveError (error : String)
  | openArchive (url : String)
  | injectContentScript (url : String)
deriving DecidableEq, Repr

/-- The mutable fields of `ArchiveNotificationUI` the state machine acts
on. -/
structure ArchiveNotificationUI where
  state : UIState
  currentUrl : String
deriving DecidableEq, Repr

/-- `ArchiveNotificationUI.init(url)`: records the current target URL and
enters the loading state. -/
def ArchiveNotificationUI.init (url : String) : ArchiveNotificationUI :=
  ⟨⟨true, false, none, none⟩, url⟩

/-- `ArchiveNotificationUI.handleMessage`: `ARCHIVE_FOUND` and
`ARCHIVE_ERROR` overwrite the state unconditionally (the message payload
carries no target URL, and `currentUrl` is never consulted); other
message kinds are ignored. -/
def ArchiveNotificationUI.handleMessage (ui : ArchiveNotificationUI)
    (message : ExtensionMessage) : ArchiveNotificationUI :=
  match message with
  | .archiveFound a => { ui with state := ⟨false, true, some a, none⟩ }
  | .archiveError e => { ui with state := ⟨false, false, none, some e⟩ }
  | _ => ui

/-- The fixed prefix of `getErrorHTML`'s template, up to the interpolated
error text. -/
def errorHTMLPre : String :=
  "\n        <div class=\"j-archive-notification-content j-archive-error\">\n          <div class=\"j-archive-notification-header\">\n            <span class=\"j-archive-notification-icon\">❌</span>\n            <span class=\"j-archive-notification-title\">Archive Not Found</span>\n            <button class=\"j-archive-notification-close\" id=\"j-archive-close-btn\">×</button>\n          </div>\n          <div class=\"j-archive-notification-body\">\n            <p>"

/-- The fixed suffix of `getErrorHTML`'s template, after the interpolated
error text. -/
def errorHTMLPost : String :=
  "</p>\n          </div>\n        </div>\n      "

/-- `getErrorHTML`: the error template with
`this.state.error || 'No archived version available'` interpolated. -/
def getErrorHTML (s : UIState) : String :=
  errorHTMLPre ++ jsOr s.error "No archived version available" ++ errorHTMLPost

/-- `getLoadingHTML` (no interpolation; abbreviated to its title line). -/
def getLoadingHTML : String :=
  "Searching Archive..."

/-- `getArchiveFoundHTML` (no interpolation; abbreviated to its title
line). -/
def getArchiveFoundHTML : String :=
  "Archive Found!"

/-- `renderUI`: which innerHTML the current state displays (`none` when
no branch fires and the container is left untouched). -/
def renderUI (s : UIState) : Option String :=
  if s.isLoading then some getLoadingHTML
  else if s.hasArchive && truthyS s.archiveUrl then some getArchiveFoundHTML
  else if truthyS s.error then some (getErrorHTML s)
  else none

/-! ### Shared lemmas: characters -/

theorem toNat_ofNat_small (n : Nat) (h : n < 55296) : (Char.ofNat n).toNat = n := by
  unfold Char.ofNat
  rw [dif_pos (Or.inl h : Nat.isValidChar n)]
  rfl

theorem lowerChar_toNat_of_upper (c : Char) (h : 65 ≤ c.toNat ∧ c.toNat ≤ 90) :
    (lowerChar c).toNat = c.toNat + 32 := by
  rw [lowerChar, if_pos h]
  exact toNat_ofNat_small _ (by omega)

theorem lowerChar_of_not_upper (c : Char) (h : ¬(65 ≤ c.toNat ∧ c.toNat ≤ 90)) :
    lowerChar c = c := by
  rw [lowerChar, if_neg h]

theorem lowerChar_idem (c : Char) : lowerChar (lowerChar c) = lowerChar c := by
  by_cases h : 65 ≤ c.toNat ∧ c.toNat ≤ 90
  · have h2 := lowerChar_toNat_of_upper c h
    exact lowerChar_of_not_upper _ (by omega)
  · rw [lowerChar_of_not_upper c h]
    exact lowerChar_of_not_upper c h

theorem map_lowerChar_idem (l : List Char) :
    (l.map lowerChar).map lowerChar = l.map lowerChar := by
  rw [List.map_map]
  exact List.map_congr_left (fun c _ => lowerChar_idem c)

theorem ne_of_toNat_ne {c d : Char} (h : c.toNat ≠ d.toNat) : c ≠ d :=
  fun he => h (he ▸ rfl)

theorem forbidden_false_of_lower_letter (c : Char)
    (h1 : 97 ≤ c.toNat) (h2 : c.toNat ≤ 122) : forbiddenHostChar c = false := by
  have hne : ∀ d : Char, d.toNat < 97 ∨ 122 < d.toNat → (c == d) = false := by
    intro d hd
    exact beq_eq_false_iff_ne.mpr (ne_of_toNat_ne (by omega))
  simp only [forbiddenHostChar, Bool.or_eq_false_iff]
  repeat' apply And.intro
  all_goals exact hne _ (by decide)

theorem forbiddenHostChar_lowerChar (c : Char) (h : forbiddenHostChar c = false) :
    forbiddenHostChar (lowerChar c) = false := by
  by_cases hu : 65 ≤ c.toNat ∧ c.toNat ≤ 90
  · have := lowerChar_toNat_of_upper c hu
    exact forbidden_false_of_lower_letter _ (by omega) (by omega)
  · rwa [lowerChar_of_not_upper c hu]

/-- A character rejected by `forbiddenHostChar` is none of the listed
delimiters; spelled out for each delimiter the proofs need. -/
theorem good_host_char_facts (c : Char) (h : forbiddenHostChar c = false) :
    (c == '/') = false ∧ (c == '\\') = false ∧ (c == '?') = false ∧
    (c == '#') = false ∧ (c == '@') = false ∧ (c == ':') = false := by
  simp only [forbiddenHostChar, Bool.or_eq_false_iff] at h
  tauto

/-! ### Shared lemmas: strings and lists -/

theorem data_append (a b : String) : (a ++ b).data = a.data ++ b.data :=
  String.data_append a b

theorem string_ne_of_head {a b : String} {x y : Char} {ta tb : List Char}
    (ha : a.data = x :: ta) (hb : b.data = y :: tb) (hxy : x ≠ y) : a ≠ b := by
  intro he
  rw [he, hb] at ha
  injection ha with h1 _
  exact hxy h1.symm

theorem takeWhile_eq_self_of_all {α : Type} (p : α → Bool) (l : List α)
    (h : ∀ c ∈ l, p c = true) : l.takeWhile p = l := by
  induction l with
  | nil => rfl
  | cons c t ih =>
    rw [List.takeWhile_cons_of_pos (h c (List.mem_cons_self c t))]
    exact congrArg (c :: ·) (ih fun x hx => h x (List.mem_cons_of_mem c hx))

theorem dropWhile_eq_nil_of_all {α : Type} (p : α → Bool) (l : List α)
    (h : ∀ c ∈ l, p c = true) : l.dropWhile p = [] := by
  induction l with
  | nil => rfl
  | cons c t ih =>
    rw [List.dropWhile_cons_of_pos (h c (List.mem_cons_self c t))]
    exact ih fun x hx => h x (List.mem_cons_of_mem c hx)

theorem takeWhile_append_cons {α : Type} (p : α → Bool) (a : List α) (b : α) (t : List α)
    (ha : ∀ c ∈ a, p c = true) (hb : p b = false) :
    (a ++ b :: t).takeWhile p = a := by
  induction a with
  | nil =>
    rw [List.nil_append]
    exact List.takeWhile_cons_of_neg (by simp [hb])
  | cons c a' ih =>
    rw [List.cons_append, List.takeWhile_cons_of_pos (ha c (List.mem_cons_self c a'))]
    exact congrArg (c :: ·) (ih fun x hx => ha x (List.mem_cons_of_mem c hx))

theorem dropWhile_append_cons {α : Type} (p : α → Bool) (a : List α) (b : α) (t : List α)
    (ha : ∀ c ∈ a, p c = true) (hb : p b = false) :
    (a ++ b :: t).dropWhile p = b :: t := by
  induction a with
  | nil =>
    rw [List.nil_append]
    exact List.dropWhile_cons_of_neg (by simp [hb])
  | cons c a' ih =>
    rw [List.cons_append, List.dropWhile_cons_of_pos (ha c (List.mem_cons_self c a'))]
    exact ih fun x hx => ha x (List.mem_cons_of_mem c hx)

theorem takeWhile_append_all {α : Type} (p : α → Bool) (a t : List α)
    (ha : ∀ c ∈ a, p c = true) :
    (a ++ t).takeWhile p = a ++ t.takeWhile p := by
  induction a with
  | nil => rfl
  | cons c a' ih =>
    rw [List.cons_append, List.takeWhile_cons_of_pos (ha c (List.mem_cons_self c a'))]
    exact congrArg (c :: ·) (ih fun x hx => ha x (List.mem_cons_of_mem c hx))

theorem map_id_of_mem {α : Type} (f : α → α) (l : List α) (h : ∀ c ∈ l, f c = c) :
    l.map f = l := by
  induction l with
  | nil => rfl
  | cons c t ih =>
    rw [List.map_cons, h c (List.mem_cons_self c t)]
    exact congrArg (c :: ·) (ih fun x hx => h x (List.mem_cons_of_mem c hx))

theorem afterLastAt_of_no_at (l : List Char) (h : ∀ c ∈ l, (c == '@') = false) :
    afterLastAt l = l := by
  rw [afterLastAt, takeWhile_eq_self_of_all _ _ (fun c hc => by
    rw [notAt, h c (List.mem_reverse.mp hc)]
    rfl), List.reverse_reverse]

/-! ### Extractor lemmas -/

theorem jsIndexOf_eq_none (sub l : List Char) :
    jsIndexOf sub l = none ↔ ∀ p : Nat, sub.isPrefixOf (l.drop p) = false := by
  induction l with
  | nil =>
    constructor
    · intro h p
      rw [List.drop_nil]
      cases hp : sub.isPrefixOf ([] : List Char) with
      | false => rfl
      | true => rw [jsIndexOf, if_pos hp] at h; cases h
    · intro h
      have h0 : sub.isPrefixOf ([] : List Char) = false := h 0
      rw [jsIndexOf, if_neg (by rw [h0]; exact Bool.false_ne_true)]
  | cons c t ih =>
    constructor
    · intro h p
      cases hp : sub.isPrefixOf (c :: t) with
      | true => rw [jsIndexOf, if_pos hp] at h; cases h
      | false =>
        rw [jsIndexOf, if_neg (by rw [hp]; exact Bool.false_ne_true)] at h
        have ht : jsIndexOf sub t = none := by
          cases hjt : jsIndexOf sub t with
          | none => rfl
          | some i => rw [hjt] at h; cases h
        match p with
        | 0 => exact hp
        | q + 1 => exact (ih.mp ht) q
    · intro h
      have hp : sub.isPrefixOf (c :: t) = false := h 0
      rw [jsIndexOf, if_neg (by rw [hp]; exact Bool.false_ne_true)]
      rw [ih.mpr fun p => h (p + 1)]
      rfl

/-- The length of the fixed link head. -/
theorem linkHead_length : linkHead.length = 19 := by decide

theorem matchAt_nil : matchAt [] = none := by decide

theorem matchAt_some (l m : List Char) (h : matchAt l = some m) :
    linkHead.isPrefixOf l = true ∧
    m = linkHead ++ (l.drop linkHead.length).takeWhile isAlnumChar ∧
    5 ≤ ((l.drop linkHead.length).takeWhile isAlnumChar).length := by
  rw [matchAt] at h
  by_cases hp : linkHead.isPrefixOf l
  · rw [if_pos hp] at h
    by_cases h5 : 5 ≤ ((l.drop linkHead.length).takeWhile isAlnumChar).length
    · rw [if_pos h5] at h
      exact ⟨hp, (Option.some.injEq .. ▸ h).symm, h5⟩
    · rw [if_neg h5] at h
      exact absurd h (by simp)
  · rw [if_neg hp] at h
    exact absurd h (by simp)

theorem scanFirst_some (l m : List Char) (h : scanFirst l = some m) :
    ∃ p : Nat, matchAt (l.drop p) = some m ∧
      ∀ q < p, matchAt (l.drop q) = none := by
  induction l with
  | nil => exact absurd h (by simp [scanFirst])
  | cons c t ih =>
    rw [scanFirst] at h
    by_cases hm : ∃ m0, matchAt (c :: t) = some m0
    · obtain ⟨m0, hm0⟩ := hm
      rw [hm0] at h
      refine ⟨0, ?_, fun q hq => absurd hq (by omega)⟩
      rw [List.drop_zero, hm0]
      exact h
    · have hnone : matchAt (c :: t) = none := by
        cases hcase : matchAt (c :: t) with
        | none => rfl
        | some m0 => exact absurd ⟨m0, hcase⟩ hm
      rw [hnone] at h
      obtain ⟨p, hp1, hp2⟩ := ih h
      refine ⟨p + 1, hp1, fun q hq => ?_⟩
      match q with
      | 0 => exact hnone
      | q' + 1 => exact hp2 q' (by omega)

theorem scanFirst_none (l : List Char) (h : scanFirst l = none) :
    ∀ p : Nat, matchAt (l.drop p) = none := by
  induction l with
  | nil => intro p; rw [List.drop_nil]; exact matchAt_nil
  | cons c t ih =>
    rw [scanFirst] at h
    intro p
    cases hcase : matchAt (c :: t) with
    | some m0 => rw [hcase] at h; exact absurd h (by simp)
    | none =>
      rw [hcase] at h
      match p with
      | 0 => exact hcase
      | q + 1 => exact ih h q

theorem scanFirst_none_of_short (l : List Char) (h : l.length < 19) :
    scanFirst l = none := by
  cases hcase : scanFirst l with
  | none => rfl
  | some m =>
    obtain ⟨p, hp1, _⟩ := scanFirst_some l m hcase
    have hpre := (matchAt_some _ _ hp1).1
    have hlen : linkHead.length ≤ (l.drop p).length :=
      (List.isPrefixOf_iff_prefix.mp hpre).length_le
    rw [linkHead_length, List.length_drop] at hlen
    omega

/-- The pattern of the claim: the fixed link head followed by at least
five alphanumerics, occurring as a prefix of the text at offset `p`. -/
def LinkPattern (m : List Char) : Prop :=
  ∃ ident : List Char, m = linkHead ++ ident ∧
    (∀ c ∈ ident, isAlnumChar c = true) ∧ 5 ≤ ident.length

/-- `m` matches the link pattern at offset `p` of `l`. -/
def MatchesAt (l : List Char) (p : Nat) (m : List Char) : Prop :=
  LinkPattern m ∧ m <+: l.drop p

theorem matchesAt_imp_matchAt {l : List Char} {p : Nat} {m' : List Char}
    (h : MatchesAt l p m') :
    ∃ m, matchAt (l.drop p) = some m ∧ m'.length ≤ m.length := by
  obtain ⟨⟨ident, hm, hall, h5⟩, hpre⟩ := h
  obtain ⟨t, ht⟩ := hpre
  rw [hm, List.append_assoc] at ht
  have hdrop : (l.drop p).drop linkHead.length = ident ++ t := by
    rw [← ht]
    exact List.drop_left linkHead (ident ++ t)
  have htw : ((l.drop p).drop linkHead.length).takeWhile isAlnumChar =
      ident ++ t.takeWhile isAlnumChar := by
    rw [hdrop]
    exact takeWhile_append_all _ ident t hall
  have hlen : 5 ≤ (((l.drop p).drop linkHead.length).takeWhile isAlnumChar).length := by
    rw [htw, List.length_append]
    omega
  have hpre2 : linkHead.isPrefixOf (l.drop p) = true := by
    rw [List.isPrefixOf_iff_prefix]
    exact ⟨ident ++ t, ht⟩
  refine ⟨linkHead ++ ((l.drop p).drop linkHead.length).takeWhile isAlnumChar, ?_, ?_⟩
  · rw [matchAt, if_pos hpre2, if_pos hlen]
  · rw [hm, List.length_append, List.length_append, htw, List.length_append]
    omega

theorem matchAt_some_matchesAt {l : List Char} {p : Nat} {m : List Char}
    (h : matchAt (l.drop p) = some m) : MatchesAt l p m := by
  obtain ⟨hpre, hm, h5⟩ := matchAt_some _ _ h
  have hp := List.isPrefixOf_iff_prefix.mp hpre
  obtain ⟨t, ht⟩ := hp
  constructor
  · exact ⟨_, hm, fun c hc => List.mem_takeWhile_imp hc, h5⟩
  · rw [hm]
    have hdrop : (l.drop p).drop linkHead.length = t := by
      rw [← ht]
      exact List.drop_left linkHead t
    refine ⟨t.dropWhile isAlnumChar, ?_⟩
    rw [List.append_assoc, hdrop, List.takeWhile_append_dropWhile, ht]

/-- Any successful extraction is the link head followed by a maximal
alphanumeric run of length at least five. -/
theorem parseArchiveResults_some_shape (html originalUrl a : String)
    (h : parseArchiveResults html originalUrl = some a) :
    ∃ ident : List Char, a.data = linkHead ++ ident ∧
      (∀ c ∈ ident, isAlnumChar c = true) ∧ 5 ≤ ident.length := by
  simp only [parseArchiveResults] at h
  generalize hS : (match jsIndexOf markerChars html.data with
    | some i => html.data.drop i
    | none => html.data.drop (html.data.length - 1)) = S at h
  cases hscan : scanFirst S with
  | none => rw [hscan] at h; cases h
  | some ml =>
    rw [hscan] at h
    injection h with h1
    obtain ⟨p, hp1, _⟩ := scanFirst_some _ _ hscan
    obtain ⟨_, hm, h5⟩ := matchAt_some _ _ hp1
    refine ⟨((S.drop p).drop linkHead.length).takeWhile isAlnumChar, ?_,
      fun c hc => List.mem_takeWhile_imp hc, h5⟩
    rw [← h1, hm]

/-- C4: if the marker token `TEXT-BLOCK` occurs nowhere in the document,
`parseArchiveResults` returns `none` whatever the content.  (The code
reaches this via JavaScript `slice(-1)`: the scanned slice is the final
character, too short to contain any archive link.) -/
theorem extract_none_without_marker (html originalUrl : String)
    (h : ∀ p : Nat, markerChars.isPrefixOf (html.data.drop p) = false) :
    parseArchiveResults html originalUrl = none := by
  have hnone : jsIndexOf markerChars html.data = none := (jsIndexOf_eq_none _ _).mpr h
  simp only [parseArchiveResults, hnone]
  rw [scanFirst_none_of_short]
  · rfl
  · rw [List.length_drop]
    omega

/-- Witness for C4: a document with a well-formed archive link but no
marker still extracts nothing. -/
theorem extract_none_without_marker_witness :
    parseArchiveResults "no marker here https://archive.ph/abc12" "" = none :=
  extract_none_without_marker _ _ ((jsIndexOf_eq_none _ _).mp (by decide))

/-- C5: when the marker occurs (first occurrence at index `i`), the
extractor returns exactly the first (leftmost, and greedily longest)
substring of the region from the marker onward matching
`https://archive.ph/` followed by at least five alphanumerics, ignoring
all later matches; and returns `none` when no such substring follows the
marker. -/
theorem extract_first_match_after_marker (html originalUrl : String) (i : Nat)
    (hmark : jsIndexOf markerChars html.data = some i) :
    (∀ m : String, parseArchiveResults html originalUrl = some m →
       ∃ p : Nat, MatchesAt (html.data.drop i) p m.data ∧
         (∀ m' : List Char, MatchesAt (html.data.drop i) p m' → m'.length ≤ m.data.length) ∧
         (∀ q < p, ∀ m' : List Char, ¬ MatchesAt (html.data.drop i) q m')) ∧
    (parseArchiveResults html originalUrl = none →
       ∀ p : Nat, ∀ m' : List Char, ¬ MatchesAt (html.data.drop i) p m') := by
  have heq : parseArchiveResults html originalUrl =
      (scanFirst (html.data.drop i)).map (fun m => (⟨m⟩ : String)) := by
    simp only [parseArchiveResults, hmark]
  constructor
  · intro m hm
    rw [heq] at hm
    cases hscan : scanFirst (html.data.drop i) with
    | none => rw [hscan] at hm; cases hm
    | some ml =>
      rw [hscan] at hm
      injection hm with h1
      obtain ⟨p, hp1, hp2⟩ := scanFirst_some _ _ hscan
      have hdata : m.data = ml := by rw [← h1]
      refine ⟨p, hdata ▸ matchAt_some_matchesAt hp1, ?_, ?_⟩
      · intro m' hm'
        obtain ⟨mm, hmm, hle⟩ := matchesAt_imp_matchAt hm'
        rw [hp1] at hmm
        injection hmm with h2
        rw [hdata, h2]
        exact hle
      · intro q hq m' hm'
        obtain ⟨mm, hmm, _⟩ := matchesAt_imp_matchAt hm'
        rw [hp2 q hq] at hmm
        cases hmm
  · intro hnone p m' hm'
    rw [heq] at hnone
    have hscan : scanFirst (html.data.drop i) = none := by
      cases hscan : scanFirst (html.data.drop i) with
      | none => rfl
      | some ml => rw [hscan] at hnone; cases hnone
    obtain ⟨mm, hmm, _⟩ := matchesAt_imp_matchAt hm'
    rw [scanFirst_none _ hscan p] at hmm
    cases hmm

/-- Witness for C5: with two valid links after the marker the extractor
returns the first and it is a leftmost greedy pattern match. -/
theorem extract_first_match_after_marker_witness :
    ∃ p : Nat,
      MatchesAt (("xx TEXT-BLOCK yy https://archive.ph/abc12 https://archive.ph/zzz99" : String).data.drop 3)
        p ("https://archive.ph/abc12" : String).data ∧
      (∀ m' : List Char,
        MatchesAt (("xx TEXT-BLOCK yy https://archive.ph/abc12 https://archive.ph/zzz99" : String).data.drop 3)
          p m' → m'.length ≤ ("https://archive.ph/abc12" : String).data.length) ∧
      (∀ q < p, ∀ m' : List Char,
        ¬ MatchesAt (("xx TEXT-BLOCK yy https://archive.ph/abc12 https://archive.ph/zzz99" : String).data.drop 3)
          q m') :=
  (extract_first_match_after_marker
      "xx TEXT-BLOCK yy https://archive.ph/abc12 https://archive.ph/zzz99" "" 3
      (by decide)).1 "https://archive.ph/abc12" (by decide)

/-! ### Lookup pipeline lemmas -/

/-- A successful `archiveUrl` can only come out of `parseArchiveResults`
on some response body. -/
theorem findArchiveVersion_archiveUrl (url : String) (fetched : FetchOutcome) (a : String)
    (h : (findArchiveVersion url fetched).archiveUrl = some a) :
    ∃ body : String, parseArchiveResults body (cleanUrl url) = some a := by
  cases fetched with
  | netError msg =>
    simp only [findArchiveVersion, searchArchiveResults] at h
    cases h
  | response status statusText body =>
    simp only [findArchiveVersion, searchArchiveResults] at h
    by_cases hok : responseOk status = true
    · rw [if_pos hok] at h
      cases hparse : parseArchiveResults body (cleanUrl url) with
      | none => rw [hparse] at h; cases h
      | some u =>
        rw [hparse] at h
        injection h with h1
        exact ⟨body, h1 ▸ hparse⟩
    · rw [if_neg hok] at h
      cases h

/-- C10: every `archiveUrl` carried by an `ARCHIVE_FOUND` message that
`handleFindArchive` sends to a tab is `https://archive.ph/` followed by
at least five alphanumeric characters. -/
theorem archive_found_url_shape (url : String) (tabId : Option Nat)
    (fetched : FetchOutcome) (a : String)
    (h : handleFindArchive url tabId fetched = some (.archiveFound a)) :
    ∃ ident : List Char, a.data = linkHead ++ ident ∧
      (∀ c ∈ ident, isAlnumChar c = true) ∧ 5 ≤ ident.length := by
  cases tabId with
  | none =>
    simp only [handleFindArchive] at h
    exact Option.noConfusion h
  | some tid =>
    simp only [handleFindArchive] at h
    by_cases hcond : ((findArchiveVersion url fetched).success &&
        truthyS (findArchiveVersion url fetched).archiveUrl) = true
    · rw [if_pos hcond] at h
      injection h with h1
      injection h1 with h2
      have htr : truthyS (findArchiveVersion url fetched).archiveUrl = true :=
        (Bool.and_eq_true .. ▸ hcond).2
      cases hurl : (findArchiveVersion url fetched).archiveUrl with
      | none => rw [hurl] at htr; cases htr
      | some a' =>
        rw [hurl] at htr
        have hne : (a' == "") = false := by
          cases hx : (a' == "") with
          | false => rfl
          | true => rw [truthyS, hx] at htr; cases htr
        have hjs : jsOr (some a') "" = a' := by rw [jsOr, if_neg (by rw [hne]; exact Bool.false_ne_true)]
        rw [hurl, hjs] at h2
        obtain ⟨body, hbody⟩ := findArchiveVersion_archiveUrl url fetched a' hurl
        obtain ⟨ident, hid, hall, h5⟩ := parseArchiveResults_some_shape body _ a' hbody
        exact ⟨ident, h2 ▸ hid, hall, h5⟩
    · rw [if_neg hcond] at h
      injection h with h1
      exact TabMessage.noConfusion h1

/-- Witness for C10: a concrete successful lookup whose `ARCHIVE_FOUND`
URL has the required shape. -/
theorem archive_found_url_shape_witness :
    ∃ ident : List Char,
      ("https://archive.ph/abc12" : String).data = linkHead ++ ident ∧
      (∀ c ∈ ident, isAlnumChar c = true) ∧ 5 ≤ ident.length :=
  archive_found_url_shape "https://x.com/" (some 1)
    (.response 200 "OK" "zz TEXT-BLOCK https://archive.ph/abc12")
    "https://archive.ph/abc12" (by decide)

/-! ### Distinctness of the outcome reasons -/

theorem string_cons_ne_empty {a : String} {x : Char} {ta : List Char}
    (ha : a.data = x :: ta) : a ≠ "" := by
  intro he
  have hx : (x :: ta : List Char) = [] := by rw [← ha, he]
  exact List.cons_ne_nil x ta hx

theorem searchFailed_data (m : String) :
    ("Search failed: " ++ m).data = 'S' :: ("earch failed: ".data ++ m.data) := by
  rw [data_append]
  rfl

theorem noResults_ne_searchFailed (m : String) :
    ("No archive results found" : String) ≠ "Search failed: " ++ m :=
  string_ne_of_head rfl (searchFailed_data m) (by decide)

theorem searchFailed_ne_empty (m : String) : ("Search failed: " ++ m : String) ≠ "" :=
  string_cons_ne_empty (searchFailed_data m)

/-- Failure mapping of a non-2xx HTTP response. -/
theorem findArchiveVersion_http_failed (url statusText body : String) (status : Nat)
    (hbad : responseOk status = false) :
    findArchiveVersion url (.response status statusText body) =
      ⟨false, none, some ("Search failed: " ++
        ("HTTP " ++ toString status ++ ": " ++ statusText))⟩ := by
  simp only [findArchiveVersion, searchArchiveResults]
  rw [if_neg (by rw [hbad]; exact Bool.false_ne_true)]

/-- Failure mapping of a rejected fetch (transport error or timeout). -/
theorem findArchiveVersion_net_failed (url msg : String) :
    findArchiveVersion url (.netError msg) =
      ⟨false, none, some ("Search failed: " ++ msg)⟩ := rfl

/-- C6: `findArchiveVersion` (the lookup boundary) is a total function
returning exactly one `ArchiveResponse`, which is exactly one of
Found / NotFound / Failed; every non-2xx status and every transport
error (including timeout) maps to the Failed shape with a
`Search failed: ...` human-readable reason. -/
theorem lookup_single_outcome (url : String) (fetched : FetchOutcome) :
    (let r := findArchiveVersion url fetched
     (r.success = true ∧ (∃ a, r.archiveUrl = some a ∧ r.error = none)) ∨
     (r.success = false ∧ r.archiveUrl = none ∧ r.error = some "No archive results found" ∧
        ∀ m, r.error ≠ some ("Search failed: " ++ m)) ∨
     (r.success = false ∧ r.archiveUrl = none ∧ (∃ m, r.error = some ("Search failed: " ++ m)) ∧
        r.error ≠ some "No archive results found")) ∧
    (∀ status statusText body, responseOk status = false →
      findArchiveVersion url (.response status statusText body) =
        ⟨false, none, some ("Search failed: " ++ ("HTTP " ++ toString status ++ ": " ++ statusText))⟩) ∧
    (∀ msg, findArchiveVersion url (.netError msg) =
        ⟨false, none, some ("Search failed: " ++ msg)⟩) := by
  refine ⟨?_, ?_, ?_⟩
  · cases fetched with
    | netError msg =>
      refine Or.inr (Or.inr ⟨rfl, rfl, ⟨msg, rfl⟩, ?_⟩)
      intro he
      exact noResults_ne_searchFailed msg (Option.some.inj he).symm
    | response status statusText body =>
      by_cases hok : responseOk status = true
      · cases hparse : parseArchiveResults body (cleanUrl url) with
        | some u =>
          have hr : findArchiveVersion url (.response status statusText body) =
              ⟨true, some u, none⟩ := by
            simp only [findArchiveVersion, searchArchiveResults]
            rw [if_pos hok, hparse]
          rw [hr]
          exact Or.inl ⟨rfl, u, rfl, rfl⟩
        | none =>
          have hr : findArchiveVersion url (.response status statusText body) =
              ⟨false, none, some "No archive results found"⟩ := by
            simp only [findArchiveVersion, searchArchiveResults]
            rw [if_pos hok, hparse]
          rw [hr]
          exact Or.inr (Or.inl ⟨rfl, rfl, rfl, fun m he =>
            noResults_ne_searchFailed m (Option.some.inj he)⟩)
      · have hr : findArchiveVersion url (.response status statusText body) =
            ⟨false, none, some ("Search failed: " ++
              ("HTTP " ++ toString status ++ ": " ++ statusText))⟩ := by
          simp only [findArchiveVersion, searchArchiveResults]
          rw [if_neg hok]
        rw [hr]
        exact Or.inr (Or.inr ⟨rfl, rfl, ⟨_, rfl⟩, fun he =>
          noResults_ne_searchFailed _ (Option.some.inj he).symm⟩)
  · intro status statusText body hbad
    exact findArchiveVersion_http_failed url statusText body status hbad
  · intro msg
    exact findArchiveVersion_net_failed url msg

/-- Witness for C6: a 404 response maps to the Failed shape with the
status embedded in the reason. -/
theorem lookup_single_outcome_witness :
    findArchiveVersion "https://a.com/p" (.response 404 "Not Found" "") =
      ⟨false, none, some ("Search failed: " ++ ("HTTP " ++ toString 404 ++ ": " ++ "Not Found"))⟩ :=
  (lookup_single_outcome "https://a.com/p" (.response 404 "Not Found" "")).2.1
    404 "Not Found" "" (by decide)

/-! ### UI rendering lemmas -/

theorem getErrorHTML_inj {e1 e2 : String} (h1 : (e1 == "") = false) (h2 : (e2 == "") = false)
    (h : getErrorHTML ⟨false, false, none, some e1⟩ = getErrorHTML ⟨false, false, none, some e2⟩) :
    e1 = e2 := by
  simp only [getErrorHTML, jsOr] at h
  rw [if_neg (by rw [h1]; exact Bool.false_ne_true),
     if_neg (by rw [h2]; exact Bool.false_ne_true)] at h
  have hd := congrArg String.data h
  rw [data_append, data_append, data_append, data_append] at hd
  exact String.ext (List.append_cancel_left (List.append_cancel_right hd))

theorem renderUI_error (e : String) (he : (e == "") = false) :
    renderUI ⟨false, false, none, some e⟩ = some (getErrorHTML ⟨false, false, none, some e⟩) := by
  simp only [renderUI, truthyS]
  rw [if_neg (by exact Bool.false_ne_true), if_neg (by exact Bool.false_ne_true),
     if_pos (by rw [he]; rfl)]

/-- C2: a 2xx response in which the extractor finds no link yields the
distinguished NotFound reply (`ARCHIVE_ERROR` with reason
`No archive results found`); HTTP failures and transport failures yield
`Search failed: ...` replies; the two reply messages are distinct, the
UI records the reason verbatim, and the rendered notification HTML for
NotFound differs from that of any failure. -/
theorem notFound_distinct_from_failed (url statusText body emsg stx2 : String)
    (tabId : Nat) (status status2 : Nat)
    (hok : responseOk status = true)
    (hparse : parseArchiveResults body (cleanUrl url) = none)
    (hbad : responseOk status2 = false) :
    handleFindArchive url (some tabId) (.response status statusText body) =
      some (.archiveError "No archive results found") ∧
    handleFindArchive url (some tabId) (.response status2 stx2 body) =
      some (.archiveError ("Search failed: " ++ ("HTTP " ++ toString status2 ++ ": " ++ stx2))) ∧
    handleFindArchive url (some tabId) (.netError emsg) =
      some (.archiveError ("Search failed: " ++ emsg)) ∧
    (TabMessage.archiveError "No archive results found" ≠
      .archiveError ("Search failed: " ++ ("HTTP " ++ toString status2 ++ ": " ++ stx2))) ∧
    (TabMessage.archiveError "No archive results found" ≠ .archiveError ("Search failed: " ++ emsg)) ∧
    (∀ ui : ArchiveNotificationUI, ∀ e : String,
      (ui.handleMessage (.archiveError e)).state = ⟨false, false, none, some e⟩) ∧
    renderUI ⟨false, false, none, some "No archive results found"⟩ ≠
      renderUI ⟨false, false, none, some ("Search failed: " ++ emsg)⟩ ∧
    renderUI ⟨false, false, none, some "No archive results found"⟩ ≠
      renderUI ⟨false, false, none, some ("Search failed: " ++ ("HTTP " ++ toString status2 ++ ": " ++ stx2))⟩ := by
  have hNF : findArchiveVersion url (.response status statusText body) =
      ⟨false, none, some "No archive results found"⟩ := by
    simp only [findArchiveVersion, searchArchiveResults]
    rw [if_pos hok, hparse]
  have hmsg : ∀ fetched : FetchOutcome, ∀ e : String,
      findArchiveVersion url fetched = ⟨false, none, some e⟩ → (e == "") = false →
      handleFindArchive url (some tabId) fetched = some (.archiveError e) := by
    intro fetched e hfv hne
    simp only [handleFindArchive, hfv]
    rw [if_neg (by exact Bool.false_ne_true)]
    simp only [jsOr]
    rw [if_neg (by rw [hne]; exact Bool.false_ne_true)]
  have hfail2 : findArchiveVersion url (.response status2 stx2 body) =
      ⟨false, none, some ("Search failed: " ++ ("HTTP " ++ toString status2 ++ ": " ++ stx2))⟩ :=
    findArchiveVersion_http_failed url stx2 body status2 hbad
  have hne2 : ∀ m : String, (("Search failed: " ++ m : String) == "") = false :=
    fun m => beq_eq_false_iff_ne.mpr (searchFailed_ne_empty m)
  have hneNF : (("No archive results found" : String) == "") = false := by decide
  have hrender : ∀ m : String,
      renderUI ⟨false, false, none, some "No archive results found"⟩ ≠
        renderUI ⟨false, false, none, some ("Search failed: " ++ m)⟩ := by
    intro m he
    rw [renderUI_error _ hneNF, renderUI_error _ (hne2 m)] at he
    exact noResults_ne_searchFailed m
      (getErrorHTML_inj hneNF (hne2 m) (Option.some.inj he))
  refine ⟨hmsg _ _ hNF hneNF, hmsg _ _ hfail2 (hne2 _),
    hmsg _ _ (findArchiveVersion_net_failed url emsg) (hne2 _),
    fun he => ?_, fun he => ?_, fun ui e => rfl, hrender _, hrender _⟩
  · injection he with h1
    exact noResults_ne_searchFailed _ h1
  · injection he with h1
    exact noResults_ne_searchFailed _ h1

/-- Witness for C2: a concrete 2xx body with no link produces the
NotFound reply. -/
theorem notFound_distinct_from_failed_witness :
    handleFindArchive "https://a.com/p" (some 7) (.response 200 "OK" "hello") =
      some (.archiveError "No archive results found") :=
  (notFound_distinct_from_failed "https://a.com/p" "OK" "hello" "signal timed out"
    "Service Unavailable" 7 200 503 (by decide) (by decide) (by decide)).1

/-- C3 (evidence of the code bug): `ArchiveNotificationUI.handleMessage`
applies an `ARCHIVE_FOUND` outcome unconditionally — the message payload
carries no target URL and `currentUrl` is never consulted — so a Found
outcome produced for a superseded target (here a lookup of
`https://b.com/` while the tab's current expected target is
`https://a.com/`) still transitions the tab out of Searching. -/
theorem found_overwrites_stale :
    (∀ (ui : ArchiveNotificationUI) (a : String),
      (ui.handleMessage (.archiveFound a)).state = ⟨false, true, some a, none⟩) ∧
    (((ArchiveNotificationUI.init "https://a.com/").handleMessage
        (.archiveFound "https://archive.ph/abc12")).state.hasArchive = true ∧
      (ArchiveNotificationUI.init "https://a.com/").currentUrl = "https://a.com/" ∧
      (ArchiveNotificationUI.init "https://a.com/").state.isLoading = true) :=
  ⟨fun ui a => rfl, rfl, rfl, rfl⟩

/-! ### URL parser invariants -/

theorem digit_good (c : Char) (h : isAsciiDigit c = true) : forbiddenHostChar c = false := by
  rw [isAsciiDigit, Bool.and_eq_true, decide_eq_true_eq, decide_eq_true_eq] at h
  have hne : ∀ d : Char, d.toNat < 48 ∨ 57 < d.toNat → (c == d) = false := by
    intro d hd
    exact beq_eq_false_iff_ne.mpr (ne_of_toNat_ne (by omega))
  simp only [forbiddenHostChar, Bool.or_eq_false_iff]
  repeat' apply And.intro
  all_goals exact hne _ (by decide)

/-- The serialised host of a special scheme: a nonempty, already
lowercased hostname free of forbidden characters, optionally followed by
`':'` and a nonempty all-digit port that is not the scheme default. -/
def HostShape (sch : String) (host : String) : Prop :=
  ∃ name : List Char, name ≠ [] ∧ (∀ c ∈ name, forbiddenHostChar c = false) ∧
    name.map lowerChar = name ∧
    (host.data = name ∨
      ∃ ds : List Char, ds ≠ [] ∧ (∀ c ∈ ds, isAsciiDigit c = true) ∧
        defaultPortStr sch ≠ some ⟨ds⟩ ∧ host.data = name ++ ':' :: ds)

/-- Invariants of every record produced by `parseSpecial`. -/
def SpecialShape (sch : String) (u : URLRecord) : Prop :=
  u.protocol = sch ++ ":" ∧ HostShape sch u.host ∧
  (∃ t : List Char, u.pathname.data = '/' :: t) ∧
  (∀ c ∈ u.pathname.data, (c == '?') = false ∧ (c == '#') = false ∧ (c == '\\') = false)

theorem hostShape_mem {sch host : String} (h : HostShape sch host) :
    ∀ c ∈ host.data, forbiddenHostChar c = false ∨ c = ':' := by
  obtain ⟨name, _, hgood, _, hcase⟩ := h
  intro c hc
  cases hcase with
  | inl he =>
    rw [he] at hc
    exact Or.inl (hgood c hc)
  | inr hport =>
    obtain ⟨ds, _, hds, _, he⟩ := hport
    rw [he] at hc
    rcases List.mem_append.mp hc with hn | hrest
    · exact Or.inl (hgood c hn)
    · rcases List.mem_cons.mp hrest with hcol | hd
      · exact Or.inr hcol
      · exact Or.inl (digit_good c (hds c hd))

/-- Host characters are never `? # / \ @`. -/
theorem hostShape_char_facts {sch host : String} (h : HostShape sch host) :
    ∀ c ∈ host.data, (c == '?') = false ∧ (c == '#') = false ∧
      (c == '/') = false ∧ (c == '\\') = false ∧ (c == '@') = false := by
  intro c hc
  rcases hostShape_mem h c hc with hg | hcol
  · obtain ⟨h1, h2, h3, h4, h5, _⟩ := good_host_char_facts c hg
    exact ⟨h3, h4, h1, h2, h5⟩
  · subst hcol
    exact ⟨by decide, by decide, by decide, by decide, by decide⟩

theorem any_eq_false_of_all {α : Type} (p : α → Bool) (l : List α)
    (h : ∀ c ∈ l, p c = false) : l.any p = false := by
  cases hx : l.any p with
  | false => rfl
  | true =>
    obtain ⟨c, hc, hpc⟩ := List.any_eq_true.mp hx
    rw [h c hc] at hpc
    cases hpc

theorem isEmpty_false_of_ne_nil {α : Type} {l : List α} (h : l ≠ []) :
    l.isEmpty = false := by
  cases l with
  | nil => exact absurd rfl h
  | cons c t => rfl

theorem dropWhile_cons_head {α : Type} {p : α → Bool} {l : List α} {c : α} {t : List α}
    (h : l.dropWhile p = c :: t) : p c = false := by
  induction l with
  | nil => cases h
  | cons a l' ih =>
    by_cases hp : p a = true
    · rw [List.dropWhile_cons_of_pos hp] at h
      exact ih h
    · rw [List.dropWhile_cons_of_neg hp] at h
      injection h with h1 _
      rw [← h1]
      exact Bool.not_eq_true _ ▸ hp


/-- Shape of every host produced by `parseHostPort` in special mode. -/
theorem parseHostPort_shape (sch : String) (hp : List Char) (host : String)
    (h : parseHostPort true sch hp = some host) : HostShape sch host := by
  simp only [parseHostPort, List.drop_one] at h
  by_cases hforb : (hp.takeWhile notColon).any forbiddenHostChar = true
  · rw [if_pos hforb] at h
    exact Option.noConfusion h
  · rw [if_neg hforb] at h
    by_cases hemp : (true && (hp.takeWhile notColon).isEmpty) = true
    · rw [if_pos hemp] at h
      exact Option.noConfusion h
    · rw [if_neg hemp] at h
      have hname_ne : hp.takeWhile notColon ≠ [] := by
        intro hn
        exact hemp (by rw [hn]; rfl)
      have hname_good : ∀ c ∈ hp.takeWhile notColon, forbiddenHostChar c = false := by
        intro c hc
        cases hfc : forbiddenHostChar c with
        | false => rfl
        | true => exact absurd (List.any_eq_true.mpr ⟨c, hc, hfc⟩) hforb
      have hlower_ne : (hp.takeWhile notColon).map lowerChar ≠ [] := by
        intro hn
        exact hname_ne (List.map_eq_nil.mp hn)
      have hlower_good : ∀ c ∈ (hp.takeWhile notColon).map lowerChar,
          forbiddenHostChar c = false := by
        intro c hc
        obtain ⟨c0, hc0, he⟩ := List.mem_map.mp hc
        exact he ▸ forbiddenHostChar_lowerChar c0 (hname_good c0 hc0)
      refine ⟨(hp.takeWhile notColon).map lowerChar, hlower_ne, hlower_good,
        map_lowerChar_idem _, ?_⟩
      by_cases he1 : ((hp.dropWhile notColon).isEmpty ||
          (hp.dropWhile notColon).tail.isEmpty) = true
      · rw [if_pos he1] at h
        injection h with h1
        exact Or.inl (by rw [← h1]; simp)
      · rw [if_neg he1] at h
        by_cases hdig : (hp.dropWhile notColon).tail.all isAsciiDigit = true
        · rw [if_pos hdig] at h
          by_cases hdef : (true && (defaultPortStr sch ==
              some ⟨(hp.dropWhile notColon).tail⟩)) = true
          · rw [if_pos hdef] at h
            injection h with h1
            exact Or.inl (by rw [← h1]; simp)
          · rw [if_neg hdef] at h
            injection h with h1
            have htail_ne : (hp.dropWhile notColon).tail ≠ [] := by
              intro hn
              exact he1 (Bool.or_eq_true_iff.mpr (Or.inr (by rw [hn]; rfl)))
            have hcol : hp.dropWhile notColon =
                ':' :: (hp.dropWhile notColon).tail := by
              cases hrest : hp.dropWhile notColon with
              | nil => exact absurd (by rw [hrest]; rfl) (fun hx =>
                  he1 (Bool.or_eq_true_iff.mpr (Or.inl hx)))
              | cons c0 t0 =>
                have hc0 := dropWhile_cons_head hrest
                rw [notColon, Bool.not_eq_false'] at hc0
                rw [eq_of_beq hc0]
                rfl
            refine Or.inr ⟨(hp.dropWhile notColon).tail, htail_ne,
              fun c hc => List.all_eq_true.mp hdig c hc, ?_, by rw [← h1]; simp⟩
            intro he
            rw [Bool.true_and] at hdef
            exact hdef (by rw [he]; exact beq_self_eq_true _)
        · rw [if_neg hdig] at h
          exact Option.noConfusion h

/-- The path built by `parseSpecial` from the post-authority remainder:
always starts with `'/'` and never contains `? # \`. -/
theorem specialPath_shape (after : List Char)
    (hd : ∀ c t, after = c :: t → notSpecialDelim c = false) :
    (∃ t : List Char,
      (if ((after.takeWhile notQH).map slashFix).isEmpty then ['/']
       else (after.takeWhile notQH).map slashFix) = '/' :: t) ∧
    (∀ c ∈ (if ((after.takeWhile notQH).map slashFix).isEmpty then ['/']
       else (after.takeWhile notQH).map slashFix),
      (c == '?') = false ∧ (c == '#') = false ∧ (c == '\\') = false) := by
  constructor
  · cases hafter : after with
    | nil => exact ⟨[], rfl⟩
    | cons c0 t0 =>
      have hdelim := hd c0 t0 hafter
      rw [notSpecialDelim, Bool.not_eq_false'] at hdelim
      rcases Bool.or_eq_true_iff.mp hdelim with h3 | h4
      · rcases Bool.or_eq_true_iff.mp h3 with h1 | h2
        · rcases Bool.or_eq_true_iff.mp h1 with hs | hb
          · -- c0 = '/'
            rw [eq_of_beq hs, List.takeWhile_cons_of_pos (by decide), List.map_cons]
            rw [show slashFix '/' = '/' from rfl]
            exact ⟨_, by rw [isEmpty_false_of_ne_nil (by exact List.cons_ne_nil _ _),
              if_neg (by exact Bool.false_ne_true)]⟩
          · -- c0 = '\'
            rw [eq_of_beq hb, List.takeWhile_cons_of_pos (by decide), List.map_cons]
            rw [show slashFix '\\' = '/' from rfl]
            exact ⟨_, by rw [isEmpty_false_of_ne_nil (by exact List.cons_ne_nil _ _),
              if_neg (by exact Bool.false_ne_true)]⟩
        · -- c0 = '?'
          rw [eq_of_beq h2, List.takeWhile_cons_of_neg (by decide)]
          exact ⟨[], rfl⟩
      · -- c0 = '#'
        rw [eq_of_beq h4, List.takeWhile_cons_of_neg (by decide)]
        exact ⟨[], rfl⟩
  · intro c hc
    by_cases he : ((after.takeWhile notQH).map slashFix).isEmpty = true
    · rw [if_pos he] at hc
      rcases List.mem_singleton.mp hc with rfl
      exact ⟨by decide, by decide, by decide⟩
    · rw [if_neg he] at hc
      obtain ⟨c0, hc0, hfix⟩ := List.mem_map.mp hc
      have hqh := List.mem_takeWhile_imp hc0
      rw [notQH, Bool.not_eq_true'] at hqh
      obtain ⟨hq, hh⟩ := Bool.or_eq_false_iff.mp hqh
      by_cases hbs : (c0 == '\\') = true
      · rw [slashFix, if_pos hbs] at hfix
        rw [← hfix]
        exact ⟨by decide, by decide, by decide⟩
      · rw [slashFix, if_neg hbs] at hfix
        rw [← hfix]
        exact ⟨hq, hh, Bool.not_eq_true _ ▸ hbs⟩

/-- Every record produced by `parseSpecial` satisfies `SpecialShape`. -/
theorem parseSpecial_shape (sch : String) (rest : List Char) (u : URLRecord)
    (h : parseSpecial sch rest = some u) : SpecialShape sch u := by
  simp only [parseSpecial] at h
  cases hph : parseHostPort true sch
      (afterLastAt ((rest.dropWhile slashChar).takeWhile notSpecialDelim)) with
  | none => rw [hph] at h; exact Option.noConfusion h
  | some host =>
    rw [hph] at h
    injection h with h1
    obtain ⟨hhead, hchars⟩ := specialPath_shape ((rest.dropWhile slashChar).dropWhile notSpecialDelim)
      (fun c t hct => dropWhile_cons_head hct)
    subst h1
    exact ⟨rfl, parseHostPort_shape sch _ host hph, hhead, hchars⟩

/-- `parseFile` only produces `file:` protocols. -/
theorem parseFile_protocol (rest : List Char) (u : URLRecord)
    (h : parseFile rest = some u) : u.protocol = "file:" := by
  simp only [parseFile] at h
  split at h
  · split at h
    · injection h with h1; rw [← h1]
    · split at h
      · injection h with h1; rw [← h1]
      · split at h
        · exact Option.noConfusion h
        · split at h
          · exact Option.noConfusion h
          · injection h with h1; rw [← h1]
  · split at h
    · injection h with h1; rw [← h1]
    · injection h with h1; rw [← h1]

/-- `parseNonSpecial` serialises the protocol as the scheme plus `":"`. -/
theorem parseNonSpecial_protocol (sch : String) (rest : List Char) (u : URLRecord)
    (h : parseNonSpecial sch rest = some u) : u.protocol = sch ++ ":" := by
  simp only [parseNonSpecial] at h
  split at h
  · split at h
    · exact Option.noConfusion h
    · split at h
      · exact Option.noConfusion h
      · injection h with h1; rw [← h1]
  · injection h with h1; rw [← h1]

theorem parseURL_eq (s : String) (sch : String) (rest : List Char)
    (h : splitScheme s.data = some (sch, rest)) :
    parseURL s = parseAfterScheme sch rest := by
  rw [parseURL, h]

theorem string_colon_cancel {a b : String} (h : a ++ ":" = b ++ ":") : a = b := by
  have hd := congrArg String.data h
  rw [data_append, data_append] at hd
  exact String.ext (List.append_cancel_right hd)

/-- Facts about the two schemes of interest. -/
theorem httpish_facts (sch : String) (hsch : sch = "http" ∨ sch = "https") :
    (∀ c ∈ sch.data, isSchemeChar c = true) ∧
    (∃ c t, sch.data = c :: t ∧ isAsciiAlpha c = true) ∧
    sch.data.map lowerChar = sch.data ∧
    specialSchemes.contains sch = true := by
  cases hsch with
  | inl h => subst h; exact ⟨by decide, ⟨'h', _, rfl, by decide⟩, by decide, by decide⟩
  | inr h => subst h; exact ⟨by decide, ⟨'h', _, rfl, by decide⟩, by decide, by decide⟩

/-- `splitScheme` on a well-formed scheme followed by a colon. -/
theorem splitScheme_exact (schL restL : List Char)
    (h2 : ∀ c ∈ schL, isSchemeChar c = true)
    (h3 : ∃ c t, schL = c :: t ∧ isAsciiAlpha c = true) :
    splitScheme (schL ++ ':' :: restL) = some (⟨schL.map lowerChar⟩, restL) := by
  obtain ⟨c, t, hct, halpha⟩ := h3
  simp only [splitScheme]
  rw [takeWhile_append_cons _ _ _ _ h2 (by decide),
     dropWhile_append_cons _ _ _ _ h2 (by decide), hct]
  show (if isAsciiAlpha c = true then some ((⟨(c :: t).map lowerChar⟩ : String), restL) else none) =
    some ((⟨(c :: t).map lowerChar⟩ : String), restL)
  rw [if_pos halpha]

/-- The branch that produced a record whose protocol is `http:` or
`https:` must be the special-scheme branch. -/
theorem parseURL_http_branch (s : String) (u : URLRecord)
    (hp : parseURL s = some u) (hs : u.protocol = "http:" ∨ u.protocol = "https:") :
    ∃ (sch : String) (rest : List Char), splitScheme s.data = some (sch, rest) ∧
      (sch = "http" ∨ sch = "https") ∧ parseSpecial sch rest = some u := by
  cases hsplit : splitScheme s.data with
  | none =>
    rw [parseURL, hsplit] at hp
    exact Option.noConfusion hp
  | some pr =>
    obtain ⟨sch, rest⟩ := pr
    rw [parseURL_eq s sch rest hsplit, parseAfterScheme] at hp
    have hsch_of : ∀ x : String, u.protocol = x ++ ":" → x = "http" ∨ x = "https" := by
      intro x hx
      cases hs with
      | inl h1 => exact Or.inl (string_colon_cancel (by rw [← hx, h1]; decide))
      | inr h1 => exact Or.inr (string_colon_cancel (by rw [← hx, h1]; decide))
    by_cases hcont : specialSchemes.contains sch = true
    · rw [if_pos hcont] at hp
      have hproto := (parseSpecial_shape sch rest u hp).1
      exact ⟨sch, rest, rfl, hsch_of sch hproto, hp⟩
    · rw [if_neg hcont] at hp
      by_cases hfile : (sch == "file") = true
      · rw [if_pos hfile] at hp
        have hproto := parseFile_protocol rest u hp
        have hfs : ("file" : String) = "http" ∨ ("file" : String) = "https" :=
          hsch_of "file" (by rw [hproto]; decide)
        cases hfs with
        | inl h1 => exact absurd h1 (by decide)
        | inr h1 => exact absurd h1 (by decide)
      · rw [if_neg hfile] at hp
        have hproto := parseNonSpecial_protocol sch rest u hp
        cases hsch_of sch hproto with
        | inl h1 => exact absurd hcont (by rw [h1]; decide)
        | inr h1 => exact absurd hcont (by rw [h1]; decide)

/-- `parseHostPort` is stable on the host serialisations it produces. -/
theorem parseHostPort_reparse (sch : String) (host : String) (h : HostShape sch host) :
    parseHostPort true sch host.data = some host := by
  obtain ⟨name, hne, hgood, hlower, hcase⟩ := h
  have hname_colon : ∀ c ∈ name, notColon c = true := by
    intro c hc
    rw [notColon, (good_host_char_facts c (hgood c hc)).2.2.2.2.2]
    rfl
  have hname_forb : (name.any forbiddenHostChar) = false :=
    any_eq_false_of_all _ _ hgood
  have hname_emp : (true && name.isEmpty) = false := by
    rw [Bool.true_and]
    exact isEmpty_false_of_ne_nil hne
  cases hcase with
  | inl hdata =>
    have ht : host.data.takeWhile notColon = name := by
      rw [hdata]
      exact takeWhile_eq_self_of_all _ _ hname_colon
    have hd : host.data.dropWhile notColon = [] := by
      rw [hdata]
      exact dropWhile_eq_nil_of_all _ _ hname_colon
    simp only [parseHostPort, ht, hd, List.drop_one, List.tail_nil]
    rw [if_neg (by rw [hname_forb]; exact Bool.false_ne_true),
       if_neg (by rw [hname_emp]; exact Bool.false_ne_true),
       if_pos (show ((([] : List Char)).isEmpty || (([] : List Char)).isEmpty) = true by decide)]
    rw [show cond true (name.map lowerChar) name = name.map lowerChar from rfl, hlower]
    exact congrArg some (String.ext hdata.symm)
  | inr hport =>
    obtain ⟨ds, hds_ne, hds_dig, hds_def, hdata⟩ := hport
    have ht : host.data.takeWhile notColon = name := by
      rw [hdata]
      exact takeWhile_append_cons _ _ _ _ hname_colon (by decide)
    have hd : host.data.dropWhile notColon = ':' :: ds := by
      rw [hdata]
      exact dropWhile_append_cons _ _ _ _ hname_colon (by decide)
    simp only [parseHostPort, ht, hd, List.drop_one, List.tail_cons]
    rw [if_neg (by rw [hname_forb]; exact Bool.false_ne_true),
       if_neg (by rw [hname_emp]; exact Bool.false_ne_true),
       if_neg (by
        rw [List.isEmpty_cons, isEmpty_false_of_ne_nil hds_ne]
        decide),
       if_pos (List.all_eq_true.mpr hds_dig),
       if_neg (by rw [Bool.true_and, beq_eq_false_iff_ne.mpr hds_def]; exact Bool.false_ne_true)]
    rw [show cond true (name.map lowerChar) name = name.map lowerChar from rfl, hlower]
    exact congrArg some (String.ext hdata.symm)

/-- Re-parsing the serialisation `protocol + "//" + host + pathname` of a
record produced for an http(s) URL yields the same record. -/
theorem reparse_special (sch : String) (hsch : sch = "http" ∨ sch = "https")
    (u : URLRecord) (hshape : SpecialShape sch u) :
    parseURL (u.protocol ++ "//" ++ u.host ++ u.pathname) = some u := by
  obtain ⟨hproto, hhost, ⟨pt, hpt⟩, hpchars⟩ := hshape
  obtain ⟨schOK, hschhead, hschlower, hcont⟩ := httpish_facts sch hsch
  obtain ⟨name, hname_ne, hname_good, hname_lower, hhostcase⟩ := hhost
  -- decompose the serialised string
  have hL : (u.protocol ++ "//" ++ u.host ++ u.pathname).data
      = sch.data ++ ':' :: ('/' :: '/' :: (u.host.data ++ u.pathname.data)) := by
    rw [data_append, data_append, data_append, hproto, data_append]
    rw [show (":" : String).data = [':'] from rfl, show ("//" : String).data = ['/', '/'] from rfl]
    simp [List.append_assoc]
  have hsplit : splitScheme (u.protocol ++ "//" ++ u.host ++ u.pathname).data
      = some (sch, '/' :: '/' :: (u.host.data ++ u.pathname.data)) := by
    rw [hL, splitScheme_exact _ _ schOK hschhead, hschlower]
  rw [parseURL_eq _ _ _ hsplit, parseAfterScheme, if_pos hcont]
  -- the host begins with a good character
  have hhd : ∃ hh ht, u.host.data = hh :: ht ∧ forbiddenHostChar hh = false := by
    cases hname : name with
    | nil => exact absurd hname hname_ne
    | cons n0 n1 =>
      cases hhostcase with
      | inl hdata =>
        exact ⟨n0, n1, by rw [hdata, hname], hname_good n0 (by rw [hname]; exact List.mem_cons_self n0 n1)⟩
      | inr hport =>
        obtain ⟨ds, _, _, _, hdata⟩ := hport
        exact ⟨n0, n1 ++ ':' :: ds, by rw [hdata, hname]; rfl,
          hname_good n0 (by rw [hname]; exact List.mem_cons_self n0 n1)⟩
  obtain ⟨hh, hht, hhde, hhgood⟩ := hhd
  have hhfacts := good_host_char_facts hh hhgood
  -- the reassembled HostShape, for character reasoning
  have hhostshape : HostShape sch u.host := ⟨name, hname_ne, hname_good, hname_lower, hhostcase⟩
  have hhchars := hostShape_char_facts hhostshape
  -- skip the two slashes, then stop at the host head
  have hrest2 : ('/' :: '/' :: (u.host.data ++ u.pathname.data)).dropWhile slashChar
      = u.host.data ++ u.pathname.data := by
    rw [List.dropWhile_cons_of_pos (by decide), List.dropWhile_cons_of_pos (by decide), hhde,
       List.cons_append]
    exact List.dropWhile_cons_of_neg (by
      rw [slashChar, Bool.or_eq_false_iff.mpr ⟨hhfacts.1, hhfacts.2.1⟩]
      exact Bool.false_ne_true)
  -- authority = host, remainder = path
  have hhost_delim : ∀ c ∈ u.host.data, notSpecialDelim c = true := by
    intro c hc
    obtain ⟨h1, h2, h3, h4, _⟩ := hhchars c hc
    rw [notSpecialDelim, h1, h2, h3, h4]
    rfl
  have hauth : (u.host.data ++ u.pathname.data).takeWhile notSpecialDelim = u.host.data := by
    rw [hpt]
    exact takeWhile_append_cons _ _ _ _ hhost_delim (by decide)
  have hafter : (u.host.data ++ u.pathname.data).dropWhile notSpecialDelim = u.pathname.data := by
    rw [hpt]
    exact dropWhile_append_cons _ _ _ _ hhost_delim (by decide)
  have hnoat : afterLastAt u.host.data = u.host.data :=
    afterLastAt_of_no_at _ (fun c hc => (hhchars c hc).2.2.2.2)
  simp only [parseSpecial, hrest2, hauth, hafter, hnoat,
    parseHostPort_reparse sch u.host hhostshape]
  -- path round-trip
  have hq : u.pathname.data.takeWhile notQH = u.pathname.data := by
    refine takeWhile_eq_self_of_all _ _ (fun c hc => ?_)
    obtain ⟨h1, h2, _⟩ := hpchars c hc
    rw [notQH, h1, h2]
    rfl
  have hfix : u.pathname.data.map slashFix = u.pathname.data := by
    refine map_id_of_mem _ _ (fun c hc => ?_)
    rw [slashFix, if_neg (by rw [(hpchars c hc).2.2]; exact Bool.false_ne_true)]
  rw [hq, hfix, if_neg (by
    rw [isEmpty_false_of_ne_nil (by rw [hpt]; exact List.cons_ne_nil _ _)]
    exact Bool.false_ne_true)]
  rw [show (⟨u.pathname.data⟩ : String) = u.pathname from rfl, ← hproto]

/-! ### Claim theorems about the URL normalizer -/

/-- C9: `cleanUrl` is a total function; any input that fails to parse is
returned unchanged, so it flows into `buildArchiveSearchUrl` (and hence
the lookup query) unmodified rather than being rejected. -/
theorem cleanUrl_total_unparsed_identity (s : String) (h : parseURL s = none) :
    cleanUrl s = s ∧
    buildArchiveSearchUrl (cleanUrl s) = "https://archive.ph/" ++ encodeURIComponent s := by
  have h1 : cleanUrl s = s := by simp only [cleanUrl, h]
  exact ⟨h1, by rw [h1]; rfl⟩

/-- Witness for C9: a concrete unparseable input passes through
`cleanUrl` unchanged. -/
theorem cleanUrl_total_unparsed_identity_witness :
    cleanUrl "not a url" = "not a url" ∧
    buildArchiveSearchUrl (cleanUrl "not a url") =
      "https://archive.ph/" ++ encodeURIComponent "not a url" :=
  cleanUrl_total_unparsed_identity "not a url" (by decide)

/-- Counterexample for C1: the normalizer does not fail on `ftp://x`; it
returns the normalized URL `ftp://x/`.  (The http/https scheme check in
the code is `isValidUrl`, which is not part of `cleanUrl`.) -/
theorem cleanUrl_ftp_no_failure :
    cleanUrl "ftp://x" = "ftp://x/" ∧ isValidUrl "ftp://x" = false := by
  constructor
  · rfl
  · rfl

/-- C1 (amended): the URL normalizer `cleanUrl` never fails: input that
does not parse is returned unchanged, and non-http(s) schemes are
normalized like any other URL.  The http/https scheme validation lives in
the separate predicate `isValidUrl`, which is true exactly when the input
parses with protocol `http:` or `https:`. -/
theorem cleanUrl_never_fails :
    (∀ s : String, parseURL s = none → cleanUrl s = s) ∧
    (∀ (s : String) (u : URLRecord), parseURL s = some u →
      (isValidUrl s = true ↔ (u.protocol = "http:" ∨ u.protocol = "https:"))) := by
  constructor
  · intro s h
    simp only [cleanUrl, h]
  · intro s u h
    simp only [isValidUrl, h, Bool.or_eq_true, beq_iff_eq]

/-- Witness for C1 (amended): both parts at concrete inputs; `ftp://x`
parses, so validity is decided by the protocol check, which fails. -/
theorem cleanUrl_never_fails_witness :
    cleanUrl "%%%" = "%%%" ∧
    (isValidUrl "ftp://x" = true ↔
      (("ftp:" : String) = "http:" ∨ ("ftp:" : String) = "https:")) :=
  ⟨cleanUrl_never_fails.1 "%%%" (by decide),
   cleanUrl_never_fails.2 "ftp://x" ⟨"ftp:", "x", "/"⟩ (by decide)⟩

/-- C7: for every input that parses as an absolute http(s) URL,
`cleanUrl` returns exactly `protocol + "//" + host + pathname`, and the
result contains no `?` and no `#` (query string and fragment stripped). -/
theorem cleanUrl_scheme_host_path (s : String) (u : URLRecord)
    (hp : parseURL s = some u) (hs : u.protocol = "http:" ∨ u.protocol = "https:") :
    cleanUrl s = u.protocol ++ "//" ++ u.host ++ u.pathname ∧
    ∀ c ∈ (cleanUrl s).data, (c == '?') = false ∧ (c == '#') = false := by
  have h1 : cleanUrl s = u.protocol ++ "//" ++ u.host ++ u.pathname := by
    simp only [cleanUrl, hp]
  refine ⟨h1, ?_⟩
  obtain ⟨sch, rest, _, hsch, hps⟩ := parseURL_http_branch s u hp hs
  obtain ⟨hproto, hhost, _, hpchars⟩ := parseSpecial_shape sch rest u hps
  have hL : (cleanUrl s).data
      = sch.data ++ ':' :: ('/' :: '/' :: (u.host.data ++ u.pathname.data)) := by
    rw [h1, data_append, data_append, data_append, hproto, data_append]
    rw [show (":" : String).data = [':'] from rfl, show ("//" : String).data = ['/', '/'] from rfl]
    simp [List.append_assoc]
  rw [hL]
  intro c hc
  rcases List.mem_append.mp hc with hsch_mem | hrest_mem
  · -- scheme characters
    have : ∀ x ∈ sch.data, (x == '?') = false ∧ (x == '#') = false := by
      cases hsch with
      | inl h => subst h; decide
      | inr h => subst h; decide
    exact this c hsch_mem
  · rcases List.mem_cons.mp hrest_mem with rfl | h2
    · exact ⟨by decide, by decide⟩
    · rcases List.mem_cons.mp h2 with rfl | h3
      · exact ⟨by decide, by decide⟩
      · rcases List.mem_cons.mp h3 with rfl | h4
        · exact ⟨by decide, by decide⟩
        · rcases List.mem_append.mp h4 with hhm | hpm
          · exact ⟨(hostShape_char_facts hhost c hhm).1, (hostShape_char_facts hhost c hhm).2.1⟩
          · exact ⟨(hpchars c hpm).1, (hpchars c hpm).2.1⟩

/-- Witness for C7: the spec's example input; the result is
`https://a.com/p`, with query and fragment stripped. -/
theorem cleanUrl_scheme_host_path_witness :
    cleanUrl "https://a.com/p?q=1#frag" = "https:" ++ "//" ++ "a.com" ++ "/p" ∧
    ∀ c ∈ (cleanUrl "https://a.com/p?q=1#frag").data, (c == '?') = false ∧ (c == '#') = false :=
  cleanUrl_scheme_host_path "https://a.com/p?q=1#frag" ⟨"https:", "a.com", "/p"⟩
    (by decide) (Or.inr rfl)

/-- Counterexample for C8: normalization is not idempotent on every
string.  `cleanUrl "mailto:a@b"` is `"mailto://a@b"` (the opaque path
`a@b` serialised after `//`), but normalizing again parses `a@b` as
userinfo-plus-host and yields `"mailto://b"`. -/
theorem cleanUrl_not_idempotent_mailto :
    cleanUrl (cleanUrl "mailto:a@b") ≠ cleanUrl "mailto:a@b" := by decide

/-- C8 (amended): normalization is deterministic (a pure function), and
idempotent on every input that fails to parse and on every input that
parses as an absolute http(s) URL — but not on arbitrary strings (see the
`mailto:a@b` counterexample). -/
theorem cleanUrl_idempotent_on_http (s : String)
    (h : parseURL s = none ∨
      ∃ u : URLRecord, parseURL s = some u ∧ (u.protocol = "http:" ∨ u.protocol = "https:")) :
    cleanUrl (cleanUrl s) = cleanUrl s := by
  cases h with
  | inl h0 =>
    have h1 : cleanUrl s = s := by simp only [cleanUrl, h0]
    rw [h1, h1]
  | inr hex =>
    obtain ⟨u, hu, hs⟩ := hex
    obtain ⟨sch, rest, _, hsch, hps⟩ := parseURL_http_branch s u hu hs
    have hshape := parseSpecial_shape sch rest u hps
    have h1 : cleanUrl s = u.protocol ++ "//" ++ u.host ++ u.pathname := by
      simp only [cleanUrl, hu]
    rw [h1]
    simp only [cleanUrl, reparse_special sch hsch u hshape]

/-- Witness for C8 (amended): idempotence at a concrete http URL whose
first normalization is not the identity. -/
theorem cleanUrl_idempotent_on_http_witness :
    cleanUrl (cleanUrl "HTTP://A.com:80/P?q=1#f") = cleanUrl "HTTP://A.com:80/P?q=1#f" :=
  cleanUrl_idempotent_on_http "HTTP://A.com:80/P?q=1#f"
    (Or.inr ⟨⟨"http:", "a.com", "/P"⟩, by decide, Or.inl rfl⟩)

end JArchive

/-! ### Concrete evaluations of the embedding -/

example : JArchive.cleanUrl "https://a.com/p?q=1#frag" = "https://a.com/p" := by decide
example : JArchive.cleanUrl "ftp://x" = "ftp://x/" := by decide
example : JArchive.cleanUrl "not a url" = "not a url" := by decide
example : JArchive.cleanUrl "mailto:a@b" = "mailto://a@b" := by decide
example : JArchive.cleanUrl "mailto://a@b" = "mailto://b" := by decide
example : JArchive.cleanUrl "HTTP://A.com:80/P" = "http://a.com/P" := by decide
example : JArchive.cleanUrl "https://a.com:8080/x?q=1" = "https://a.com:8080/x" := by decide
example : JArchive.isValidUrl "ftp://x" = false := by decide
example : JArchive.isValidUrl "https://a.com" = true := by decide
example : JArchive.cleanUrl "https://a.com" = "https://a.com/" := by decide
example : JArchive.parseArchiveResults "xx TEXT-BLOCK yy https://archive.ph/abc12 https://archive.ph/zzz99" "" = some "https://archive.ph/abc12" := by decide
example : JArchive.parseArchiveResults "no marker https://archive.ph/abc12" "" = none := by decide
example : JArchive.parseArchiveResults "TEXT-BLOCK https://archive.ph/ab1" "" = none := by decide
example : JArchive.parseArchiveResults "" "" = none := by decide
example : JArchive.parseArchiveResults "TEXT-BLOCK https://archive.ph/abcde9x?z" "" = some "https://archive.ph/abcde9x" := by decide
example : JArchive.findArchiveVersion "https://a.com/p" (.response 404 "Not Found" "") =
    ⟨false, none, some "Search failed: HTTP 404: Not Found"⟩ := by decide
example : JArchive.findArchiveVersion "https://a.com/p" (.netError "signal timed out") =
    ⟨false, none, some "Search failed: signal timed out"⟩ := by decide
example : JArchive.handleFindArchive "https://x.com/" (some 1)
    (.response 200 "OK" "zz TEXT-BLOCK https://archive.ph/abc12") =
    some (.archiveFound "https://archive.ph/abc12") := by decide
example : JArchive.handleFindArchive "https://x.com/" (some 1) (.response 200 "OK" "hello") =
    some (.archiveError "No archive results found") := by decide
example : JArchive.handleFindArchive "https://x.com/" none (.response 200 "OK" "hello") = none := by decide
example : (JArchive.ArchiveNotificationUI.handleMessage (JArchive.ArchiveNotificationUI.init "https://a.com/")
    (.archiveFound "https://archive.ph/abc12")).state = ⟨false, true, some "https://archive.ph/abc12", none⟩ := by decide
